import Mathlib

/-!
Verification of the sampling-and-delta engine of the system monitor
(`src/main.cpp`), shallowly embedded in Lean.

Modelling conventions:
* `unsigned long long` values are natural numbers; every arithmetic
  operation that can wrap in C++ is followed by an explicit `% 2^64`.
* C++ `double` arithmetic is modelled by exact rational arithmetic (`ℚ`);
  the percentages computed by the program involve one multiplication and
  one division of integer-valued quantities, which doubles represent
  faithfully in the ranges the claims discuss.
* file contents are passed in explicitly: a `/proc` file that could not be
  opened is `Option.none`, otherwise the lines are lists of characters.
* C++ functions that return `bool` with out-parameters become functions
  into an inductive result type; an uncaught C++ exception escaping a
  function is the `Except.error`/`thrown` case.
-/

/-- `2^64`, the modulus of `unsigned long long` arithmetic. -/
def W64 : ℕ := 2 ^ 64

/-- Wrapping `unsigned long long` subtraction `a - b`, for `a, b < 2^64`. -/
def usub64 (a b : ℕ) : ℕ := (a + W64 - b) % W64

/-- `struct CpuSample` of `main.cpp` (lines 42-60): the ten aggregate CPU
counters read from the first line of `/proc/stat`. -/
structure CpuSample where
  user : ℕ
  nice : ℕ
  system : ℕ
  idle : ℕ
  iowait : ℕ
  irq : ℕ
  softirq : ℕ
  steal : ℕ
  guest : ℕ
  guest_nice : ℕ
deriving DecidableEq

/-- `CpuSample::total()` (lines 54-56): the wrapping sum of all ten
counters. -/
def CpuSample.total (s : CpuSample) : ℕ :=
  (s.user + s.nice + s.system + s.idle + s.iowait + s.irq + s.softirq +
    s.steal + s.guest + s.guest_nice) % W64

/-- `CpuSample::idleAll()` (lines 57-59): `idle + iowait`, wrapping. -/
def CpuSample.idleAll (s : CpuSample) : ℕ :=
  (s.idle + s.iowait) % W64

/-- `ull totalDiff = (curTotal >= prevTotal) ? (curTotal - prevTotal) : 0;`
(`main.cpp` line 272). -/
def totalDiffOf (prev cur : CpuSample) : ℕ :=
  if prev.total ≤ cur.total then cur.total - prev.total else 0

/-- `ull idleDiff = (curIdleAll >= prevIdleAll) ? (curIdleAll - prevIdleAll) : 0;`
(`main.cpp` line 273). -/
def idleDiffOf (prev cur : CpuSample) : ℕ :=
  if prev.idleAll ≤ cur.idleAll then cur.idleAll - prev.idleAll else 0

/-- Aggregate CPU utilization, `main.cpp` lines 275-278:
`if (totalDiff > 0) cpuUsagePercent = (double)(totalDiff - idleDiff) * 100.0 / (double)totalDiff;`
with `cpuUsagePercent` initialised to `0.0`.  The subtraction
`totalDiff - idleDiff` is performed on `unsigned long long`, hence wraps. -/
def cpuUsagePercent (prev cur : CpuSample) : ℚ :=
  let totalDiff := totalDiffOf prev cur
  let idleDiff := idleDiffOf prev cur
  if 0 < totalDiff then ((usub64 totalDiff idleDiff : ℕ) : ℚ) * 100 / (totalDiff : ℚ)
  else 0

/-- `struct MemInfo` of `main.cpp` (lines 82-88), values in KB. -/
structure MemInfo where
  memTotal : ℕ
  memFree : ℕ
  buffers : ℕ
  cached : ℕ
  available : ℕ
deriving DecidableEq

/-- `usedMem` of `main.cpp` lines 282-288: `0` unless `memTotal > 0`, in
which case `(memTotal > available) ? memTotal - available : 0`. -/
def usedMemOf (m : MemInfo) : ℕ :=
  if 0 < m.memTotal then
    (if m.available < m.memTotal then m.memTotal - m.available else 0)
  else 0

/-- `memPercent` of `main.cpp` lines 283-288: `0.0` unless `memTotal > 0`,
in which case `(double)usedMem * 100.0 / (double)memTotal`. -/
def memPercentOf (m : MemInfo) : ℚ :=
  if 0 < m.memTotal then ((usedMemOf m : ℕ) : ℚ) * 100 / (m.memTotal : ℚ)
  else 0

/-- `struct ProcessInfo` of `main.cpp` (lines 119-125). -/
structure ProcessInfo where
  pid : ℤ
  name : List Char
  cpuPercent : ℚ
  totalTime : ℕ
  rss_kb : ℕ
deriving DecidableEq

/-- The whitespace characters recognised by `std::stringstream` extraction
(`isspace` in the default locale). -/
def isWsChar (c : Char) : Bool :=
  c = ' ' || c = '\t' || c = '\n' || c = '\x0b' || c = '\x0c' || c = '\r'

/-- Helper for `wsTokens`: accumulates the current (reversed) token. -/
def wsTokensAux : List Char → List Char → List (List Char)
  | [], acc => if acc.isEmpty then [] else [acc.reverse]
  | c :: t, acc =>
    if isWsChar c then
      (if acc.isEmpty then wsTokensAux t [] else acc.reverse :: wsTokensAux t [])
    else wsTokensAux t (c :: acc)

/-- The token sequence produced by `while (ss >> tok)` on a stringstream:
maximal runs of non-whitespace characters. -/
def wsTokens (l : List Char) : List (List Char) := wsTokensAux l []

/-- Value of a maximal leading digit run (used by the numeric parsers). -/
def digRun : List Char → ℕ → ℕ
  | c :: t, acc => if c.isDigit then digRun t (acc * 10 + (c.toNat - 48)) else acc
  | [], acc => acc

/-- Whether the first character is a decimal digit. -/
def hasLeadingDigit : List Char → Bool
  | c :: _ => c.isDigit
  | [] => false

/-- Strips one optional leading sign, reporting whether it was `-`. -/
def splitSign : List Char → Bool × List Char
  | '-' :: t => (true, t)
  | '+' :: t => (false, t)
  | l => (false, l)

/-- `std::stoull` on a whitespace-free token: `none` when no digits follow
the optional sign (`std::invalid_argument`) or the digit run exceeds
`ULLONG_MAX` (`std::out_of_range`); both are caught by the caller's
`catch (...)`.  A `-` sign negates modulo `2^64`; trailing non-digit
characters are ignored. -/
def stoullTok (tok : List Char) : Option ℕ :=
  let sr := splitSign tok
  if hasLeadingDigit sr.2 then
    let v := digRun sr.2 0
    if v < W64 then some (if sr.1 then (W64 - v) % W64 else v) else none
  else none

/-- `stream >> (unsigned long long)` on a whitespace-free token: like
`stoull` but never throws; yields `0` when no digits are present and
clamps to `ULLONG_MAX` on overflow (C++11 `num_get` semantics). -/
def streamUll (tok : List Char) : ℕ :=
  let sr := splitSign tok
  if hasLeadingDigit sr.2 then
    let v := digRun sr.2 0
    if v < W64 then (if sr.1 then (W64 - v) % W64 else v) else W64 - 1
  else 0

/-- Index of the last occurrence of `c` in `l` (C++ `string::rfind`). -/
def lastIdxOf (c : Char) (l : List Char) : Option ℕ :=
  match l.reverse.findIdx? (fun d => d = c) with
  | some i => some (l.length - 1 - i)
  | none => none

/-- Result of `readProcPidStat` on one stat line: `thrown` models an
uncaught C++ exception escaping the function, `failed` a `false` return,
`ok` a `true` return with the parsed out-parameters. -/
inductive StatResult where
  | thrown : StatResult
  | failed : StatResult
  | ok (utime stime rss_pages : ℕ) (comm : List Char) : StatResult
deriving DecidableEq

/-- The parsing core of `readProcPidStat` (`main.cpp` lines 141-169),
applied to the first line of `/proc/[pid]/stat`:
* empty line → `false`;
* `l = line.find('(')`, `r = line.rfind(')')`; missing or `r <= l` → `false`;
* `comm = line.substr(l + 1, r - l - 1)`;
* `after = line.substr(r + 2)` — **throws** `std::out_of_range` (uncaught)
  when `r + 2 > line.size()`, i.e. when the last `)` is the final character;
* whitespace-tokenise `after`; fewer than 24 fields → `false`;
* `stoull` of fields 13, 14, 21 (utime, stime, rss per the code's comments);
  a `stoull` exception is caught and yields `false`. -/
def readPidStatLine (line : List Char) : StatResult :=
  if line.isEmpty then .failed
  else
    match line.findIdx? (fun c => c = '('), lastIdxOf ')' line with
    | some l, some r =>
      if r ≤ l then .failed
      else if line.length < r + 2 then .thrown
      else
        let comm := (line.drop (l + 1)).take (r - l - 1)
        let fds := wsTokens (line.drop (r + 2))
        if fds.length < 24 then .failed
        else
          match stoullTok (fds.getD 13 []), stoullTok (fds.getD 14 []),
              stoullTok (fds.getD 21 []) with
          | some u, some s, some rp => .ok u s rp comm
          | _, _, _ => .failed
    | _, _ => .failed

/-- The name-slicing step of `readPidStatLine` in isolation
(`main.cpp` lines 144-147): `comm = line.substr(l + 1, r - l - 1)`
between the first `(` and the last `)`. -/
def extractComm (line : List Char) : Option (List Char) :=
  match line.findIdx? (fun c => c = '('), lastIdxOf ')' line with
  | some l, some r =>
    if r ≤ l then none else some ((line.drop (l + 1)).take (r - l - 1))
  | _, _ => none

/-- `readProcPidStat` (`main.cpp` lines 132-170): `none` stat file
(could not be opened) returns `false`; otherwise parse the first line. -/
def readProcPidStat (statLine : Option (List Char)) : StatResult :=
  match statLine with
  | none => .failed
  | some line => readPidStatLine line

/-- The `/proc/[pid]` files consumed by `readProcess`: the first line of
`stat` (`none` when the file cannot be opened), the first line of `comm`
(`readFirstLine` returns `""` when unopenable), and the lines of `status`. -/
structure ProcFiles where
  statLine : Option (List Char)
  commLine : List Char
  statusLines : List (List Char)

/-- The characters of `"VmRSS:"`. -/
def vmrssChars : List Char := ['V', 'm', 'R', 'S', 'S', ':']

/-- Bool prefix test: `leadsWith p l` iff `p` is a prefix of `l`
(C++ `ln.rfind(key, 0) == 0`). -/
def leadsWith : List Char → List Char → Bool
  | [], _ => true
  | _ :: _, [] => false
  | a :: as, b :: bs => a = b && leadsWith as bs

/-- Value extracted from one `VmRSS:`-prefixed status line
(`main.cpp` lines 199-206): `s >> key >> val` reads the second
whitespace token as an `unsigned long long`, `0` on parse failure. -/
def vmrssVal (ln : List Char) : ℕ :=
  match (wsTokens ln)[1]? with
  | some tok => streamUll tok
  | none => 0

/-- The `VmRSS:` scan of the fallback path (`main.cpp` lines 197-207):
each matching line overwrites `pi.rss_kb`; `0` if none matches. -/
def fallbackRss (lines : List (List Char)) : ℕ :=
  lines.foldl (fun acc ln => if leadsWith vmrssChars ln then vmrssVal ln else acc) 0

/-- `readProcess` (`main.cpp` lines 181-211).  On a successful
`readProcPidStat` the row carries `comm`, `utime + stime` and
`rss_pages * pageKb`; on a `false` return it falls back to
`/proc/[pid]/comm` and the `VmRSS:` line of `/proc/[pid]/status` with
`totalTime = 0`.  An exception thrown inside `readProcPidStat` escapes
`readProcess` (there is no handler), modelled by `Except.error`.
`cpuPercent` is left at its default `0.0`; the caller overwrites it. -/
def readProcess (pid : ℤ) (files : ProcFiles) (pageKb : ℕ) :
    Except Unit ProcessInfo :=
  match readProcPidStat files.statLine with
  | .thrown => .error ()
  | .ok u s rp comm =>
    .ok { pid := pid, name := comm, cpuPercent := 0, totalTime := u + s,
          rss_kb := rp * pageKb }
  | .failed =>
    .ok { pid := pid, name := files.commLine, cpuPercent := 0, totalTime := 0,
          rss_kb := fallbackRss files.statusLines }

/-- One iteration of the per-process loop (`main.cpp` lines 297-314),
acting on the accumulated rows and the `prevProcTimes` map (modelled as
`ℤ → Option ℕ`):
* `prevTime` is the map entry, `0` when the pid is absent;
* `diffProc = (pi.totalTime >= prevTime) ? pi.totalTime - prevTime : 0`;
* `cpuPct = totalDiff > 0 ? diffProc * 100.0 / totalDiff : 0.0`;
* the row is appended and `prevProcTimes[pid] = pi.totalTime`. -/
def procStep (totalDiff pageKb : ℕ) (files : ℤ → ProcFiles)
    (st : List ProcessInfo × (ℤ → Option ℕ)) (pid : ℤ) :
    Except Unit (List ProcessInfo × (ℤ → Option ℕ)) :=
  match readProcess pid (files pid) pageKb with
  | .error e => .error e
  | .ok pi0 =>
    let prevTime := (st.2 pid).getD 0
    let diffProc := if prevTime ≤ pi0.totalTime then pi0.totalTime - prevTime else 0
    let cpuPct : ℚ :=
      if 0 < totalDiff then (diffProc : ℚ) * 100 / (totalDiff : ℚ) else 0
    let pi1 := { pi0 with cpuPercent := cpuPct }
    .ok (st.1 ++ [pi1], fun k => if k = pid then some pi1.totalTime else st.2 k)

/-- The whole per-process loop `for (int pid : pids)` of `main.cpp`
lines 297-314; an exception escaping any iteration aborts the program. -/
def procLoop (totalDiff pageKb : ℕ) (files : ℤ → ProcFiles) :
    List ℤ → List ProcessInfo × (ℤ → Option ℕ) →
    Except Unit (List ProcessInfo × (ℤ → Option ℕ))
  | [], st => .ok st
  | pid :: rest, st =>
    match procStep totalDiff pageKb files st pid with
    | .error e => .error e
    | .ok st' => procLoop totalDiff pageKb files rest st'

/-- The purge step (`main.cpp` lines 316-321): every key of
`prevProcTimes` that is not in `pids` is erased. -/
def purgeHist (h : ℤ → Option ℕ) (pids : List ℤ) : ℤ → Option ℕ :=
  fun k => if k ∈ pids then h k else none

/-- One monitoring cycle's per-process computations followed by the purge
(`main.cpp` lines 297-321), starting from an empty row list. -/
def runCycle (prevProcTimes : ℤ → Option ℕ) (totalDiff pageKb : ℕ)
    (files : ℤ → ProcFiles) (pids : List ℤ) :
    Except Unit (List ProcessInfo × (ℤ → Option ℕ)) :=
  match procLoop totalDiff pageKb files pids ([], prevProcTimes) with
  | .error e => .error e
  | .ok st => .ok (st.1, purgeHist st.2 pids)

/-- The cumulative CPU time `readProcess` observes for `pid` this cycle
(`0` in the impossible aborted case, which never feeds the map). -/
def obsTimeOf (files : ℤ → ProcFiles) (pageKb : ℕ) (pid : ℤ) : ℕ :=
  match readProcess pid (files pid) pageKb with
  | .ok pi0 => pi0.totalTime
  | .error _ => 0

/-- The comparator handed to `std::sort` (`main.cpp` lines 324-327):
`a` before `b` iff `a.cpuPercent > b.cpuPercent`, ties broken by
`a.rss_kb > b.rss_kb`. -/
def procBefore (a b : ProcessInfo) : Bool :=
  if a.cpuPercent ≠ b.cpuPercent then decide (b.cpuPercent < a.cpuPercent)
  else decide (b.rss_kb < a.rss_kb)

/-- The non-strict order induced by the comparator: `a` may precede `b`
in the sorted output iff the comparator does not order `b` before `a`. -/
def sortLE (a b : ProcessInfo) : Prop := procBefore b a = false

instance : DecidableRel sortLE := fun a b => instDecidableEqBool (procBefore b a) false

/-- The postcondition of the `std::sort` call at `main.cpp` lines
324-327, which is all the C++ standard guarantees: `out` is a permutation
of the input, sorted with respect to the comparator — no adjacent pair is
ordered the other way by `procBefore`.  `std::sort` is not stable, so the
order among elements the comparator treats as equivalent (equal
`cpuPercent` and equal `rss_kb`) is unspecified. -/
def StdSortResult (procs out : List ProcessInfo) : Prop :=
  out.Perm procs ∧ List.Chain' (fun a b => procBefore b a = false) out

/-- One conforming implementation of the `std::sort` call (`main.cpp`
lines 324-327), used by the display pipeline model: insertion sort by
the comparator's induced order.  `std::sort` itself guarantees only
`StdSortResult`; this executable choice is used only where the
permutation and sortedness guarantees matter (the filtering claim), not
to decide order among comparator-equivalent elements. -/
def sortProcs (procs : List ProcessInfo) : List ProcessInfo :=
  procs.insertionSort sortLE

/-- Bool substring test: `hasSub f l` iff `f` occurs contiguously in `l`. -/
def hasSub : List Char → List Char → Bool
  | f, [] => leadsWith f []
  | f, c :: t => leadsWith f (c :: t) || hasSub f t

/-- Modelled from the spec: the filter predicate of §4.3 — the interactive
name filter is absent from `src/main.cpp` (the loop displays every
process), so the predicate follows the spec's words: "keep sample iff
filter is empty OR name contains filter as a substring (case-sensitive,
literal)". -/
def keepSample (f : List Char) (p : ProcessInfo) : Bool :=
  f.isEmpty || hasSub f p.name

/-- Modelled from the spec: `rank(samples, key, filter)` of §4.3 — the
filtering stage is absent from `src/main.cpp`, so it is modelled from the
spec's words; the sort is the code's CPU-descending `sortProcs` and the
truncation is the display row budget (`main.cpp` lines 343-345 show at
most 20 rows). -/
def rank (samples : List ProcessInfo) (f : List Char) (budget : ℕ) :
    List ProcessInfo :=
  (sortProcs (samples.filter (keepSample f))).take budget

/-- A well-formed stat line: 24 fields after the name, with fields 13, 14
and 21 (the positions the code reads as utime, stime, rss) set to 500, 0
and 7. -/
def statLine500 : List Char :=
  "42 (foo) S 1 1 1 1 1 1 1 1 1 1 1 1 500 0 1 1 1 1 1 1 7 1 1".data

/-- Like `statLine500` but with cumulative time 560. -/
def statLine560 : List Char :=
  "42 (foo) S 1 1 1 1 1 1 1 1 1 1 1 1 560 0 1 1 1 1 1 1 7 1 1".data

/-- Environment in which every pid's stat file holds `statLine500`. -/
def files500 : ℤ → ProcFiles := fun _ => ⟨some statLine500, [], []⟩

/-- Environment in which every pid's stat file holds `statLine560`. -/
def files560 : ℤ → ProcFiles := fun _ => ⟨some statLine560, [], []⟩

/-- A malformed stat line: parentheses are present but only one field
follows the name, far fewer than the 24 the parser requires. -/
def statLineMal : List Char := "7 (foo) S".data

/-- Environment with a malformed stat file, plus the fallback files the
code then consults: `/proc/[pid]/comm` and `/proc/[pid]/status`. -/
def filesMal : ℤ → ProcFiles :=
  fun _ => ⟨some statLineMal, "foo".data, ["VmRSS:   28 kB".data]⟩

lemma sortLE_iff (a b : ProcessInfo) :
    sortLE a b ↔ a.cpuPercent > b.cpuPercent ∨
      (a.cpuPercent = b.cpuPercent ∧ a.rss_kb ≥ b.rss_kb) := by
  unfold sortLE procBefore
  by_cases h : b.cpuPercent = a.cpuPercent
  · simp [h, not_lt, decide_eq_false_iff_not]
  · have h' : a.cpuPercent ≠ b.cpuPercent := fun e => h e.symm
    simp [h, h', not_lt]
    constructor
    · intro hle
      exact lt_of_le_of_ne hle h
    · exact le_of_lt

theorem sortLE_total : IsTotal ProcessInfo sortLE := by
  constructor
  intro a b
  rcases lt_trichotomy a.cpuPercent b.cpuPercent with h | h | h
  · exact Or.inr ((sortLE_iff b a).mpr (Or.inl h))
  · rcases le_total b.rss_kb a.rss_kb with hr | hr
    · exact Or.inl ((sortLE_iff a b).mpr (Or.inr ⟨h, hr⟩))
    · exact Or.inr ((sortLE_iff b a).mpr (Or.inr ⟨h.symm, hr⟩))
  · exact Or.inl ((sortLE_iff a b).mpr (Or.inl h))

theorem sortLE_trans : IsTrans ProcessInfo sortLE := by
  constructor
  intro a b c hab hbc
  rw [sortLE_iff] at hab hbc ⊢
  rcases hab with h1 | ⟨e1, r1⟩ <;> rcases hbc with h2 | ⟨e2, r2⟩
  · exact Or.inl (h2.trans h1)
  · exact Or.inl (e2 ▸ h1)
  · exact Or.inl (e1 ▸ h2)
  · exact Or.inr ⟨e1.trans e2, r2.trans r1⟩

lemma leadsWith_iff (f l : List Char) :
    leadsWith f l = true ↔ ∃ post, l = f ++ post := by
  induction f generalizing l with
  | nil => simp [leadsWith]
  | cons a as ih =>
    cases l with
    | nil => simp [leadsWith]
    | cons b bs =>
      simp only [leadsWith, Bool.and_eq_true, decide_eq_true_eq, ih,
        List.cons_append, List.cons.injEq]
      constructor
      · rintro ⟨rfl, post, rfl⟩
        exact ⟨post, rfl, rfl⟩
      · rintro ⟨post, rfl, rfl⟩
        exact ⟨rfl, post, rfl⟩

lemma hasSub_iff (f l : List Char) :
    hasSub f l = true ↔ ∃ pre post, l = pre ++ f ++ post := by
  induction l with
  | nil =>
    simp only [hasSub, leadsWith_iff]
    constructor
    · rintro ⟨post, h⟩
      exact ⟨[], post, by simpa using h⟩
    · rintro ⟨pre, post, h⟩
      have h' := h.symm
      simp only [List.append_eq_nil] at h'
      obtain ⟨⟨rfl, rfl⟩, rfl⟩ := h'
      exact ⟨[], rfl⟩
  | cons c t ih =>
    simp only [hasSub, Bool.or_eq_true, leadsWith_iff, ih]
    constructor
    · rintro (⟨post, h⟩ | ⟨pre, post, h⟩)
      · exact ⟨[], post, by simpa using h⟩
      · exact ⟨c :: pre, post, by simp [h]⟩
    · rintro ⟨pre, post, h⟩
      cases pre with
      | nil => exact Or.inl ⟨post, by simpa using h⟩
      | cons x xs =>
        rcases List.cons.injEq _ _ _ _ ▸ h with ⟨rfl, ht⟩
        exact Or.inr ⟨xs, post, by simpa using ht⟩

lemma findIdx_first (p : Char → Bool) (a : List Char) (c : Char)
    (rest : List Char) (ha : ∀ x ∈ a, p x = false) (hc : p c = true) (i : ℕ) :
    List.findIdx? p (a ++ c :: rest) i = some (i + a.length) := by
  induction a generalizing i with
  | nil => simp [List.findIdx?_cons, hc]
  | cons x xs ih =>
    have hx := ha x (by simp)
    rw [List.cons_append, List.findIdx?_cons, hx]
    simp only [Bool.false_eq_true, if_false]
    rw [ih (fun y hy => ha y (by simp [hy])) (i + 1)]
    congr 1
    simp only [List.length_cons]
    omega

lemma lastIdxOf_sandwich (a m b : List Char) (hb : ')' ∉ b) :
    lastIdxOf ')' (a ++ '(' :: m ++ ')' :: b) = some (a.length + m.length + 1) := by
  have hrev : (a ++ '(' :: m ++ ')' :: b).reverse =
      b.reverse ++ ')' :: (m.reverse ++ '(' :: a.reverse) := by
    simp [List.reverse_append]
  have hfind : (a ++ '(' :: m ++ ')' :: b).reverse.findIdx? (fun d => d = ')') 0 =
      some b.reverse.length := by
    rw [hrev]
    simpa using findIdx_first (fun d => d = ')') b.reverse ')' (m.reverse ++ '(' :: a.reverse)
      (fun x hx => by
        simp only [decide_eq_false_iff_not]
        intro hxe
        exact hb (by simpa [hxe] using List.mem_reverse.mp hx))
      (by decide) 0
  have hlen : (a ++ '(' :: m ++ ')' :: b).length = a.length + m.length + b.length + 2 := by
    simp only [List.append_assoc, List.length_append, List.length_cons]
    omega
  have harith : (a ++ '(' :: m ++ ')' :: b).length - 1 - b.reverse.length =
      a.length + m.length + 1 := by
    rw [hlen, List.length_reverse]
    omega
  unfold lastIdxOf
  rw [hfind]
  show some ((a ++ '(' :: m ++ ')' :: b).length - 1 - b.reverse.length) =
    some (a.length + m.length + 1)
  rw [harith]

lemma extractComm_sandwich (a m b : List Char)
    (ha : '(' ∉ a) (hb : ')' ∉ b) :
    extractComm (a ++ '(' :: m ++ ')' :: b) = some m := by
  have hshape : a ++ '(' :: m ++ ')' :: b = a ++ '(' :: (m ++ ')' :: b) := by simp
  have hfind : (a ++ '(' :: m ++ ')' :: b).findIdx? (fun c => c = '(') 0 =
      some a.length := by
    rw [hshape]
    have := findIdx_first (fun c => c = '(') a '(' (m ++ ')' :: b)
      (fun x hx => by
        simp only [decide_eq_false_iff_not]
        intro hxe
        exact ha (hxe ▸ hx))
      (by decide) 0
    simpa using this
  unfold extractComm
  rw [hfind, lastIdxOf_sandwich a m b hb]
  dsimp only
  rw [if_neg (by omega)]
  have hdrop : (a ++ '(' :: m ++ ')' :: b).drop (a.length + 1) = m ++ ')' :: b := by
    have h2 : a ++ '(' :: m ++ ')' :: b = (a ++ ['(']) ++ (m ++ ')' :: b) := by simp
    have h3 : a.length + 1 = (a ++ ['(']).length := by simp
    rw [h2, h3, List.drop_left]
  rw [hdrop]
  have harith : a.length + m.length + 1 - a.length - 1 = m.length := by omega
  rw [harith, List.take_left]

lemma procLoop_hist (td pk : ℕ) (files : ℤ → ProcFiles) (pids : List ℤ) :
    ∀ (st : List ProcessInfo × (ℤ → Option ℕ)) (procs : List ProcessInfo)
      (h : ℤ → Option ℕ),
      procLoop td pk files pids st = .ok (procs, h) →
      ∀ k, h k = if k ∈ pids then some (obsTimeOf files pk k) else st.2 k := by
  induction pids with
  | nil =>
    intro st procs h hrun k
    simp only [procLoop, Except.ok.injEq] at hrun
    subst hrun
    simp
  | cons pid rest ih =>
    intro st procs h hrun k
    rw [procLoop] at hrun
    unfold procStep at hrun
    cases hr : readProcess pid (files pid) pk with
    | error e => rw [hr] at hrun; exact absurd hrun (by simp)
    | ok pi0 =>
      rw [hr] at hrun
      dsimp only at hrun
      have hobs : obsTimeOf files pk pid = pi0.totalTime := by
        unfold obsTimeOf
        rw [hr]
      have := ih _ procs h hrun k
      by_cases hk : k ∈ rest
      · simp [hk, List.mem_cons] at this ⊢
        exact this
      · by_cases hkp : k = pid
        · subst hkp
          simp [hk, List.mem_cons, hobs] at this ⊢
          exact this
        · simp [hk, hkp, List.mem_cons] at this ⊢
          exact this

/-- C3: After every monitoring cycle completes (per-process computations
followed by the purge step), the history map's key set is exactly the set
of pids returned by that cycle's process enumeration, each entry holding
that pid's most recently observed cumulative CPU time — so the map's size
is bounded by the live-process count, and a pid absent from the
enumeration (hence purged) holds no entry to be inherited on reuse. -/
theorem history_keys_after_cycle (prevProcTimes : ℤ → Option ℕ)
    (td pk : ℕ) (files : ℤ → ProcFiles) (pids : List ℤ)
    (procs : List ProcessInfo) (h' : ℤ → Option ℕ)
    (hrun : runCycle prevProcTimes td pk files pids = .ok (procs, h'))
    (k : ℤ) :
    h' k = if k ∈ pids then some (obsTimeOf files pk k) else none := by
  unfold runCycle at hrun
  cases hl : procLoop td pk files pids ([], prevProcTimes) with
  | error e => rw [hl] at hrun; exact absurd hrun (by simp)
  | ok st =>
    rw [hl] at hrun
    simp only [Except.ok.injEq, Prod.mk.injEq] at hrun
    obtain ⟨rfl, rfl⟩ := hrun
    have hst := procLoop_hist td pk files pids ([], prevProcTimes) st.1 st.2
      (by rw [hl]) k
    unfold purgeHist
    by_cases hk : k ∈ pids
    · simp only [hk, if_true] at hst ⊢
      exact hst
    · simp [hk]

lemma total_lt_W64 (s : CpuSample) : s.total < W64 :=
  Nat.mod_lt _ (by norm_num [W64])

lemma cpuUsagePercent_eq (prev cur : CpuSample) :
    cpuUsagePercent prev cur =
      if 0 < totalDiffOf prev cur then
        ((usub64 (totalDiffOf prev cur) (idleDiffOf prev cur) : ℕ) : ℚ) * 100 /
          (totalDiffOf prev cur : ℚ)
      else 0 := rfl

lemma totalDiffOf_lt_W64 (prev cur : CpuSample) : totalDiffOf prev cur < W64 := by
  unfold totalDiffOf
  split
  · exact lt_of_le_of_lt (Nat.sub_le _ _) (total_lt_W64 cur)
  · norm_num [W64]

lemma usub64_of_le (a b : ℕ) (hb : b ≤ a) (ha : a < W64) : usub64 a b = a - b := by
  unfold usub64
  have h1 : a + W64 - b = W64 + (a - b) := by omega
  rw [h1, Nat.add_mod_left]
  exact Nat.mod_eq_of_lt (by omega)

/-- C1 (amended): for CPU counter samples with `cur.total ≥ prev.total`
**and** `idleDiff ≤ totalDiff` (automatic for monotonic kernel counters,
but not implied by the totals alone — without it the unsigned subtraction
`totalDiff - idleDiff` wraps), the aggregate utilization lies in [0,100],
and it is exactly 0.0 when `cur.total == prev.total`. -/
theorem utilization_in_range (prev cur : CpuSample)
    (_hT : prev.total ≤ cur.total)
    (hI : idleDiffOf prev cur ≤ totalDiffOf prev cur) :
    0 ≤ cpuUsagePercent prev cur ∧ cpuUsagePercent prev cur ≤ 100 ∧
      (cur.total = prev.total → cpuUsagePercent prev cur = 0) := by
  rw [cpuUsagePercent_eq, usub64_of_le _ _ hI (totalDiffOf_lt_W64 prev cur)]
  by_cases hpos : 0 < totalDiffOf prev cur
  · rw [if_pos hpos]
    have hTq : (0 : ℚ) < (totalDiffOf prev cur : ℚ) := by exact_mod_cast hpos
    refine ⟨by positivity, ?_, ?_⟩
    · rw [div_le_iff₀ hTq]
      have hsub : ((totalDiffOf prev cur - idleDiffOf prev cur : ℕ) : ℚ) ≤
          (totalDiffOf prev cur : ℚ) := by exact_mod_cast Nat.sub_le _ _
      nlinarith
    · intro he
      exfalso
      unfold totalDiffOf at hpos
      rw [he] at hpos
      simp at hpos
  · rw [if_neg hpos]
    exact ⟨le_refl 0, by norm_num, fun _ => rfl⟩

/-- Witness for C1 (amended) at a concrete pair of samples. -/
theorem utilization_in_range_witness :
    (⟨100, 0, 0, 0, 0, 0, 0, 0, 0, 0⟩ : CpuSample).total ≤
        (⟨200, 0, 0, 100, 0, 0, 0, 0, 0, 0⟩ : CpuSample).total ∧
      idleDiffOf ⟨100, 0, 0, 0, 0, 0, 0, 0, 0, 0⟩ ⟨200, 0, 0, 100, 0, 0, 0, 0, 0, 0⟩ ≤
        totalDiffOf ⟨100, 0, 0, 0, 0, 0, 0, 0, 0, 0⟩ ⟨200, 0, 0, 100, 0, 0, 0, 0, 0, 0⟩ ∧
      (0 ≤ cpuUsagePercent ⟨100, 0, 0, 0, 0, 0, 0, 0, 0, 0⟩ ⟨200, 0, 0, 100, 0, 0, 0, 0, 0, 0⟩ ∧
        cpuUsagePercent ⟨100, 0, 0, 0, 0, 0, 0, 0, 0, 0⟩ ⟨200, 0, 0, 100, 0, 0, 0, 0, 0, 0⟩ ≤ 100 ∧
        ((⟨200, 0, 0, 100, 0, 0, 0, 0, 0, 0⟩ : CpuSample).total =
            (⟨100, 0, 0, 0, 0, 0, 0, 0, 0, 0⟩ : CpuSample).total →
          cpuUsagePercent ⟨100, 0, 0, 0, 0, 0, 0, 0, 0, 0⟩ ⟨200, 0, 0, 100, 0, 0, 0, 0, 0, 0⟩ = 0)) :=
  ⟨by decide, by decide,
    utilization_in_range ⟨100, 0, 0, 0, 0, 0, 0, 0, 0, 0⟩ ⟨200, 0, 0, 100, 0, 0, 0, 0, 0, 0⟩
      (by decide) (by decide)⟩

/-- Counterexample to C1 as stated: with `prev = (user=100)` and
`cur = (user=60, idle=50)` we have `cur.total = 110 ≥ 100 = prev.total`,
but `totalDiff = 10 < 50 = idleDiff`, so the unsigned subtraction
`totalDiff - idleDiff` wraps modulo 2^64 and the reported utilization is
astronomically larger than 100. -/
theorem utilization_in_range_counterexample :
    (⟨100, 0, 0, 0, 0, 0, 0, 0, 0, 0⟩ : CpuSample).total ≤
        (⟨60, 0, 0, 50, 0, 0, 0, 0, 0, 0⟩ : CpuSample).total ∧
      ¬ (cpuUsagePercent ⟨100, 0, 0, 0, 0, 0, 0, 0, 0, 0⟩
          ⟨60, 0, 0, 50, 0, 0, 0, 0, 0, 0⟩ ≤ 100) := by
  constructor
  · decide
  · rw [cpuUsagePercent_eq]
    norm_num [totalDiffOf, idleDiffOf, usub64, CpuSample.total, CpuSample.idleAll, W64]

/-- C7: when the idle counters are unchanged and the total advanced, the
aggregate utilization is strictly positive. -/
theorem utilization_positive (prev cur : CpuSample)
    (hidle : cur.idleAll = prev.idleAll) (htot : prev.total < cur.total) :
    0 < cpuUsagePercent prev cur := by
  have hT : 0 < totalDiffOf prev cur := by
    unfold totalDiffOf
    rw [if_pos (le_of_lt htot)]
    omega
  have hI : idleDiffOf prev cur = 0 := by
    unfold idleDiffOf
    rw [hidle]
    simp
  rw [cpuUsagePercent_eq, hI, usub64_of_le _ _ (Nat.zero_le _) (totalDiffOf_lt_W64 prev cur),
    if_pos hT]
  have hTq : (0 : ℚ) < (totalDiffOf prev cur : ℚ) := by exact_mod_cast hT
  apply div_pos ?_ hTq
  have : ((totalDiffOf prev cur - 0 : ℕ) : ℚ) = (totalDiffOf prev cur : ℚ) := by norm_num
  rw [this]
  nlinarith

/-- Witness for C7 at a concrete pair of samples. -/
theorem utilization_positive_witness :
    (⟨0, 0, 0, 3, 0, 0, 0, 0, 0, 0⟩ : CpuSample).idleAll =
        (⟨0, 0, 0, 3, 0, 0, 0, 0, 0, 0⟩ : CpuSample).idleAll ∧
      (⟨0, 0, 0, 3, 0, 0, 0, 0, 0, 0⟩ : CpuSample).total <
        (⟨5, 0, 0, 3, 0, 0, 0, 0, 0, 0⟩ : CpuSample).total ∧
      0 < cpuUsagePercent ⟨0, 0, 0, 3, 0, 0, 0, 0, 0, 0⟩ ⟨5, 0, 0, 3, 0, 0, 0, 0, 0, 0⟩ :=
  ⟨rfl, by decide,
    utilization_positive ⟨0, 0, 0, 3, 0, 0, 0, 0, 0, 0⟩ ⟨5, 0, 0, 3, 0, 0, 0, 0, 0, 0⟩
      rfl (by decide)⟩

/-- C4: the used-memory value equals `max(0, memTotal - memAvailable)`
(truncated subtraction), the memory percentage is `usedKb*100/memTotal`
when `memTotal > 0` and exactly 0.0 when `memTotal == 0`; and the spec's
scenario `memTotal=8000000, available=2000000` yields 6000000 KB used and
75.00%. -/
theorem memory_utilization_spec (m : MemInfo) :
    usedMemOf m = m.memTotal - m.available ∧
    memPercentOf m =
      (if 0 < m.memTotal then
        ((m.memTotal - m.available : ℕ) : ℚ) * 100 / (m.memTotal : ℚ)
      else 0) ∧
    usedMemOf ⟨8000000, 0, 0, 0, 2000000⟩ = 6000000 ∧
    memPercentOf ⟨8000000, 0, 0, 0, 2000000⟩ = 75 := by
  have h1 : usedMemOf m = m.memTotal - m.available := by
    unfold usedMemOf
    split
    · split <;> omega
    · omega
  refine ⟨h1, ?_, by decide, by norm_num [memPercentOf, usedMemOf]⟩
  unfold memPercentOf
  rw [h1]

/-- C5 (amended): every output the `std::sort` call may produce — any
permutation of the samples that is sorted by the comparator — is ordered
by CPU% descending with ties broken by RSS descending: each adjacent
pair satisfies `a.cpuPercent > b.cpuPercent` or equal CPU% with
`a.rss_kb ≥ b.rss_kb`; and the code's sort does produce such an output.
The order is however not deterministic: among samples tied in both
fields the contract admits more than one sequence (see the
counterexample), so re-sorting is not guaranteed to reproduce the
output. -/
theorem sorted_output_order (procs : List ProcessInfo) :
    (∀ out, StdSortResult procs out →
      List.Chain' (fun a b => a.cpuPercent > b.cpuPercent ∨
        (a.cpuPercent = b.cpuPercent ∧ a.rss_kb ≥ b.rss_kb)) out) ∧
    StdSortResult procs (sortProcs procs) := by
  constructor
  · intro out h
    exact h.2.imp (fun a b hab => (sortLE_iff a b).mp hab)
  · constructor
    · exact List.perm_insertionSort sortLE procs
    · exact (@List.sorted_insertionSort ProcessInfo sortLE _
        sortLE_total sortLE_trans procs).chain'

/-- Witness for C5 (amended): a concrete sorted permutation (ordered by
the RSS tie-break) satisfies the claimed adjacent-pair ordering. -/
theorem sorted_output_order_witness :
    StdSortResult [⟨2, ['b'], 0, 3, 4⟩, ⟨1, ['a'], 0, 5, 9⟩]
        [⟨1, ['a'], 0, 5, 9⟩, ⟨2, ['b'], 0, 3, 4⟩] ∧
      List.Chain' (fun a b : ProcessInfo => a.cpuPercent > b.cpuPercent ∨
        (a.cpuPercent = b.cpuPercent ∧ a.rss_kb ≥ b.rss_kb))
        [⟨1, ['a'], 0, 5, 9⟩, ⟨2, ['b'], 0, 3, 4⟩] :=
  ⟨⟨List.Perm.swap _ _ _, List.chain'_pair.mpr (by decide)⟩,
    (sorted_output_order [⟨2, ['b'], 0, 3, 4⟩, ⟨1, ['a'], 0, 5, 9⟩]).1
      [⟨1, ['a'], 0, 5, 9⟩, ⟨2, ['b'], 0, 3, 4⟩]
      ⟨List.Perm.swap _ _ _, List.chain'_pair.mpr (by decide)⟩⟩

/-- Counterexample to C5's determinism conjunct: for two samples tied in
both `cpuPercent` and `rss_kb` (ubiquitous in practice — every idle
kernel thread reports the same 0.00% and 0 KB), both orders are
comparator-sorted permutations of the same input, so the contract of the
unstable `std::sort` does not determine the output order and re-sorting
the output is not guaranteed to yield the same sequence. -/
theorem sort_determinism_counterexample :
    StdSortResult [⟨1, ['a'], 0, 0, 0⟩, ⟨2, ['b'], 0, 0, 0⟩]
        [⟨1, ['a'], 0, 0, 0⟩, ⟨2, ['b'], 0, 0, 0⟩] ∧
      StdSortResult [⟨1, ['a'], 0, 0, 0⟩, ⟨2, ['b'], 0, 0, 0⟩]
        [⟨2, ['b'], 0, 0, 0⟩, ⟨1, ['a'], 0, 0, 0⟩] ∧
      ([⟨1, ['a'], 0, 0, 0⟩, ⟨2, ['b'], 0, 0, 0⟩] : List ProcessInfo) ≠
        [⟨2, ['b'], 0, 0, 0⟩, ⟨1, ['a'], 0, 0, 0⟩] :=
  ⟨⟨List.Perm.refl _, List.chain'_pair.mpr (by decide)⟩,
    ⟨List.Perm.swap _ _ _, List.chain'_pair.mpr (by decide)⟩, by decide⟩

/-- C6 (spec-modelled — the name filter is absent from `src/main.cpp`):
`rank` keeps a sample iff the filter is empty or the sample's name
contains the filter as a case-sensitive literal substring; the empty
filter returns all samples modulo truncation to the row budget, and
with a non-empty filter every returned sample's name contains it. -/
theorem rank_filter_substring (samples : List ProcessInfo) (f : List Char)
    (budget : ℕ) :
    (f = [] → rank samples f budget = (sortProcs samples).take budget) ∧
    (∀ p, p ∈ samples.filter (keepSample f) ↔
      p ∈ samples ∧ (f = [] ∨ ∃ pre post, p.name = pre ++ f ++ post)) ∧
    (∀ p, p ∈ rank samples f budget →
      f = [] ∨ ∃ pre post, p.name = pre ++ f ++ post) := by
  have hkeep : ∀ p : ProcessInfo,
      keepSample f p = true ↔ f = [] ∨ ∃ pre post, p.name = pre ++ f ++ post := by
    intro p
    unfold keepSample
    simp [List.isEmpty_iff, hasSub_iff]
  refine ⟨?_, ?_, ?_⟩
  · rintro rfl
    have hfilter : samples.filter (keepSample []) = samples :=
      List.filter_eq_self.mpr (fun a _ => by simp [keepSample])
    unfold rank
    rw [hfilter]
  · intro p
    rw [List.mem_filter, hkeep]
  · intro p hp
    unfold rank at hp
    have h1 : p ∈ sortProcs (samples.filter (keepSample f)) :=
      List.take_subset _ _ hp
    have h2 : p ∈ samples.filter (keepSample f) :=
      (List.perm_insertionSort sortLE (samples.filter (keepSample f))).mem_iff.mp h1
    exact (hkeep p).mp (List.mem_filter.mp h2).2

/-- Witness for C6 at a concrete sample list and filter. -/
theorem rank_filter_substring_witness :
    ((⟨1, ['f', 'o', 'o'], 0, 0, 0⟩ : ProcessInfo) ∈
        rank [⟨1, ['f', 'o', 'o'], 0, 0, 0⟩] ['o'] 20) ∧
      (['o'] = ([] : List Char) ∨
        ∃ pre post, (⟨1, ['f', 'o', 'o'], 0, 0, 0⟩ : ProcessInfo).name =
          pre ++ ['o'] ++ post) :=
  ⟨by decide,
    (rank_filter_substring [⟨1, ['f', 'o', 'o'], 0, 0, 0⟩] ['o'] 20).2.2
      ⟨1, ['f', 'o', 'o'], 0, 0, 0⟩ (by decide)⟩

/-- C8: on any stat record line decomposed as
`a ++ '(' :: m ++ ')' :: b` with no `(` before the shown one and no `)`
after the shown one (so they are the first `(` and the last `)`), the
extracted name is exactly the slice `m` strictly between them —
regardless of spaces or parentheses inside `m`. -/
theorem comm_extraction_lexical (a m b : List Char)
    (ha : '(' ∉ a) (hb : ')' ∉ b) :
    extractComm (a ++ '(' :: m ++ ')' :: b) = some m :=
  extractComm_sandwich a m b ha hb

/-- Witness for C8: the name `a b(c` containing a space and a parenthesis
is extracted intact. -/
theorem comm_extraction_lexical_witness :
    ('(' ∉ "42 ".data) ∧ (')' ∉ " S 7".data) ∧
      extractComm ("42 ".data ++ '(' :: "a b(c".data ++ ')' :: " S 7".data) =
        some "a b(c".data :=
  ⟨by decide, by decide,
    comm_extraction_lexical "42 ".data "a b(c".data " S 7".data (by decide) (by decide)⟩

/-- C2 (amended): a pid absent from the history map contributes its full
cumulative CPU time as the first-observation diff (`prevTime` defaults to
0), so the reported percentage is `totalTime*100/totalDiff` rather than
0.00; the history entry is then set to the observed cumulative time.  The
second cycle of the spec's scenario is unchanged: pid 42 with history 500,
cumulative 560 and `totalDiff = 200` reports 30.00% and history becomes
560. -/
theorem first_observation_full_diff (h : ℤ → Option ℕ) (pid : ℤ)
    (files : ℤ → ProcFiles) (td pk : ℕ) (pi0 : ProcessInfo)
    (hnone : h pid = none)
    (hread : readProcess pid (files pid) pk = .ok pi0) :
    (procStep td pk files ([], h) pid =
      .ok ([{ pi0 with cpuPercent :=
            if 0 < td then (pi0.totalTime : ℚ) * 100 / (td : ℚ) else 0 }],
        fun k => if k = pid then some pi0.totalTime else h k)) ∧
    Except.map (fun st => (st.1.map ProcessInfo.cpuPercent, st.2 42))
        (procStep 200 4 files560 ([], fun k => if k = 42 then some 500 else none) 42) =
      .ok ([30], some 560) := by
  constructor
  · unfold procStep
    rw [hread]
    dsimp only
    rw [hnone]
    simp only [Option.getD_none, Nat.zero_le, if_true, Nat.sub_zero, List.nil_append]
  · have step1 : Except.map (fun st => (st.1.map ProcessInfo.cpuPercent, st.2 42))
        (procStep 200 4 files560 ([], fun k => if k = 42 then some 500 else none) 42) =
        .ok ([((60 : ℕ) : ℚ) * 100 / ((200 : ℕ) : ℚ)], some 560) := rfl
    rw [step1]
    norm_num

/-- Witness for C2 (amended): pid 42 first seen with cumulative time 500
while `totalDiff = 200`. -/
theorem first_observation_full_diff_witness :
    ((fun _ : ℤ => (none : Option ℕ)) 42 = none) ∧
      readProcess 42 (files500 42) 4 = .ok ⟨42, ['f', 'o', 'o'], 0, 500, 28⟩ ∧
      ((procStep 200 4 files500 ([], fun _ => none) 42 =
        .ok ([⟨42, ['f', 'o', 'o'],
            (if 0 < (200 : ℕ) then ((500 : ℕ) : ℚ) * 100 / ((200 : ℕ) : ℚ) else 0),
            500, 28⟩],
          fun k => if k = 42 then some 500 else (fun _ : ℤ => (none : Option ℕ)) k)) ∧
      Except.map (fun st => (st.1.map ProcessInfo.cpuPercent, st.2 42))
          (procStep 200 4 files560 ([], fun k => if k = 42 then some 500 else none) 42) =
        .ok ([30], some 560)) :=
  ⟨rfl, by rfl,
    first_observation_full_diff (fun _ => none) 42 files500 200 4
      ⟨42, ['f', 'o', 'o'], 0, 500, 28⟩ rfl (by rfl)⟩

/-- Counterexample to C2 as stated: pid 42, first seen with cumulative
time 500 and `totalDiff = 200`, reports 250.00% — not 0.00% — and the
history entry becomes 500. -/
theorem first_observation_counterexample :
    Except.map (fun st => (st.1.map ProcessInfo.cpuPercent, st.2 42))
        (procStep 200 4 files500 ([], fun _ => none) 42) =
      .ok ([250], some 500) ∧ (250 : ℚ) ≠ 0 := by
  refine ⟨?_, by norm_num⟩
  have step1 : Except.map (fun st => (st.1.map ProcessInfo.cpuPercent, st.2 42))
      (procStep 200 4 files500 ([], fun _ => none) 42) =
      .ok ([((500 : ℕ) : ℚ) * 100 / ((200 : ℕ) : ℚ)], some 500) := rfl
  rw [step1]
  norm_num

/-- C9 (amended): a malformed stat record — one on which `readProcPidStat`
returns `false` — is **not** skipped: `readProcess` falls back to
`/proc/[pid]/comm` and the `VmRSS:` line of `/proc/[pid]/status`, the
process still contributes a row (with `totalTime = 0`, hence 0.00% CPU),
the history entry for the pid is set to 0 for this cycle, and no error
propagates to the caller. -/
theorem malformed_record_fallback (pid : ℤ) (files : ℤ → ProcFiles)
    (td pk : ℕ) (procs : List ProcessInfo) (h : ℤ → Option ℕ)
    (hmal : readProcPidStat (files pid).statLine = .failed) :
    procStep td pk files (procs, h) pid =
      .ok (procs ++ [⟨pid, (files pid).commLine, 0, 0,
          fallbackRss (files pid).statusLines⟩],
        fun k => if k = pid then some 0 else h k) := by
  unfold procStep readProcess
  rw [hmal]
  dsimp only
  have hdiff : (if (h pid).getD 0 ≤ 0 then 0 - (h pid).getD 0 else 0 : ℕ) = 0 := by
    split <;> omega
  rw [hdiff]
  simp only [Nat.cast_zero, zero_mul, zero_div, ite_self]

/-- Witness for C9 (amended) on the concrete malformed environment. -/
theorem malformed_record_fallback_witness :
    readProcPidStat (filesMal 7).statLine = .failed ∧
      procStep 0 4 filesMal ([], fun _ => none) 7 =
        .ok ([] ++ [⟨7, (filesMal 7).commLine, 0, 0,
            fallbackRss (filesMal 7).statusLines⟩],
          fun k => if k = 7 then some 0 else (fun _ : ℤ => (none : Option ℕ)) k) :=
  ⟨by decide,
    malformed_record_fallback 7 filesMal 0 4 [] (fun _ => none) (by decide)⟩

/-- Counterexample to C9 as stated: the malformed record `"7 (foo) S"`
(too few fields) does NOT lead to the process being skipped — the cycle
still emits a row for pid 7 (name from the comm file, rss from VmRSS,
time 0) and still updates the history entry to 0. -/
theorem malformed_record_counterexample :
    readPidStatLine statLineMal = .failed ∧
      Except.map
          (fun st => (st.1.map (fun p => (p.pid, p.name, p.totalTime, p.rss_kb)),
            st.2 7))
          (runCycle (fun _ => none) 0 4 filesMal [7]) =
        .ok ([(7, "foo".data, 0, 28)], some 0) := by
  exact ⟨by decide, by rfl⟩

/-- Witness for C3 on a one-process cycle. -/
theorem history_keys_after_cycle_witness :
    runCycle (fun _ => none) 0 4 files500 [42] =
        .ok ([⟨42, ['f', 'o', 'o'], 0, 500, 28⟩],
          purgeHist (fun k => if k = 42 then some 500 else (fun _ : ℤ => (none : Option ℕ)) k)
            [42]) ∧
      purgeHist (fun k => if k = 42 then some 500 else (fun _ : ℤ => (none : Option ℕ)) k)
          [42] 42 =
        if (42 : ℤ) ∈ [(42 : ℤ)] then some (obsTimeOf files500 4 42) else none :=
  ⟨by rfl,
    history_keys_after_cycle (fun _ => none) 0 4 files500 [42]
      [⟨42, ['f', 'o', 'o'], 0, 500, 28⟩]
      (purgeHist (fun k => if k = 42 then some 500 else (fun _ : ℤ => (none : Option ℕ)) k) [42])
      (by rfl) 42⟩

lemma readPidStatLine_no_parens (line : List Char) (hne : ¬ line.isEmpty = true)
    (h : line.findIdx? (fun c => c = '(') = none ∨ lastIdxOf ')' line = none) :
    readPidStatLine line = .failed := by
  unfold readPidStatLine
  rw [if_neg hne]
  cases hfi : line.findIdx? (fun c => c = '(') with
  | none =>
    cases hla : lastIdxOf ')' line with
    | none => rfl
    | some r => rfl
  | some l =>
    cases hla : lastIdxOf ')' line with
    | none => rfl
    | some r =>
      rcases h with h | h
      · rw [h] at hfi
        exact absurd hfi (by simp)
      · rw [h] at hla
        exact absurd hla (by simp)

lemma readPidStatLine_spec (line : List Char) (hne : ¬ line.isEmpty = true)
    (l r : ℕ) (hfi : line.findIdx? (fun c => c = '(') = some l)
    (hla : lastIdxOf ')' line = some r) :
    readPidStatLine line =
      (if r ≤ l then StatResult.failed
       else if line.length < r + 2 then StatResult.thrown
       else if (wsTokens (line.drop (r + 2))).length < 24 then StatResult.failed
       else
         match stoullTok ((wsTokens (line.drop (r + 2))).getD 13 []),
             stoullTok ((wsTokens (line.drop (r + 2))).getD 14 []),
             stoullTok ((wsTokens (line.drop (r + 2))).getD 21 []) with
         | some u, some s, some rp =>
           StatResult.ok u s rp ((line.drop (l + 1)).take (r - l - 1))
         | _, _, _ => StatResult.failed) := by
  unfold readPidStatLine
  rw [if_neg hne, hfi, hla]

/-- C10 (amended): `readProcPidStat`'s parser is total and exception-free
**except** on lines whose last `)` is the final character: it raises
(`= .thrown`) exactly when the line has a first `(` strictly before its
last `)` and fewer than two characters after that `)` (the uncaught
`substr(r+2)` out-of-range); on every other input it returns without
throwing, and it succeeds (`= .ok`) only when there are at least 24
fields after the name and `stoull` parses fields 13, 14 and 21. -/
theorem stat_parser_total_or_throws (line : List Char) :
    (readPidStatLine line = .thrown ↔
      ∃ l r, line.findIdx? (fun c => c = '(') = some l ∧
        lastIdxOf ')' line = some r ∧ l < r ∧ line.length < r + 2) ∧
    (∀ u s rp comm, readPidStatLine line = .ok u s rp comm →
      ∃ l r, line.findIdx? (fun c => c = '(') = some l ∧
        lastIdxOf ')' line = some r ∧ l < r ∧ r + 2 ≤ line.length ∧
        24 ≤ (wsTokens (line.drop (r + 2))).length ∧
        stoullTok ((wsTokens (line.drop (r + 2))).getD 13 []) = some u ∧
        stoullTok ((wsTokens (line.drop (r + 2))).getD 14 []) = some s ∧
        stoullTok ((wsTokens (line.drop (r + 2))).getD 21 []) = some rp ∧
        comm = (line.drop (l + 1)).take (r - l - 1)) := by
  by_cases he : line.isEmpty = true
  · have hnil : line = [] := by
      cases line with
      | nil => rfl
      | cons c t => simp [List.isEmpty] at he
    subst hnil
    constructor
    · simp [readPidStatLine]
    · intro u s rp comm hok
      simp [readPidStatLine] at hok
  · cases hfi : line.findIdx? (fun c => c = '(') with
    | none =>
      have hfl := readPidStatLine_no_parens line he (Or.inl hfi)
      rw [hfl]
      constructor
      · constructor
        · intro habs
          exact absurd habs (by simp)
        · rintro ⟨l', r', hl', _, _, _⟩
          exact absurd hl' (by simp)
      · intro u s rp comm hok
        exact absurd hok (by simp)
    | some l =>
      cases hla : lastIdxOf ')' line with
      | none =>
        have hfl := readPidStatLine_no_parens line he (Or.inr hla)
        rw [hfl]
        constructor
        · constructor
          · intro habs
            exact absurd habs (by simp)
          · rintro ⟨l', r', _, hr', _, _⟩
            exact absurd hr' (by simp)
        · intro u s rp comm hok
          exact absurd hok (by simp)
      | some r =>
        rw [readPidStatLine_spec line he l r hfi hla]
        by_cases h1 : r ≤ l
        · rw [if_pos h1]
          have hnotE : ¬ (∃ l' r' : ℕ, some l = some l' ∧ some r = some r' ∧
              l' < r' ∧ line.length < r' + 2) := by
            rintro ⟨l', r', hl', hr', hlt, _⟩
            simp only [Option.some.injEq] at hl' hr'
            omega
          refine ⟨iff_of_false (by simp) hnotE, ?_⟩
          intro u s rp comm hok
          exact absurd hok (by simp)
        · rw [if_neg h1]
          by_cases h2 : line.length < r + 2
          · rw [if_pos h2]
            refine ⟨iff_of_true rfl ⟨l, r, rfl, rfl, by omega, h2⟩, ?_⟩
            intro u s rp comm hok
            exact absurd hok (by simp)
          · rw [if_neg h2]
            have hnotE : ¬ (∃ l' r' : ℕ, some l = some l' ∧ some r = some r' ∧
                l' < r' ∧ line.length < r' + 2) := by
              rintro ⟨l', r', hl', hr', _, hlen⟩
              simp only [Option.some.injEq] at hl' hr'
              omega
            by_cases h3 : (wsTokens (line.drop (r + 2))).length < 24
            · rw [if_pos h3]
              refine ⟨iff_of_false (by simp) hnotE, ?_⟩
              intro u s rp comm hok
              exact absurd hok (by simp)
            · rw [if_neg h3]
              rcases hsu : stoullTok ((wsTokens (line.drop (r + 2))).getD 13 []) with _ | u0 <;>
                rcases hss : stoullTok ((wsTokens (line.drop (r + 2))).getD 14 []) with _ | s0 <;>
                rcases hsr : stoullTok ((wsTokens (line.drop (r + 2))).getD 21 []) with _ | rp0 <;>
                refine ⟨iff_of_false (by simp) hnotE, ?_⟩ <;>
                intro u s rp comm hok <;>
                first
              | · simp at hok
              | · have hok' : StatResult.ok u0 s0 rp0
                      ((line.drop (l + 1)).take (r - l - 1)) =
                      StatResult.ok u s rp comm := hok
                  simp only [StatResult.ok.injEq] at hok'
                  obtain ⟨rfl, rfl, rfl, rfl⟩ := hok'
                  exact ⟨l, r, rfl, rfl, by omega, by omega, by omega, hsu, hss, hsr, rfl⟩

/-- Counterexample to C10 as stated: on the line `"1 (foo)"` — nonempty,
with `(` and a later `)` and fewer than 24 fields after the name, so the
claim demands a `false` return — the parser instead raises: the last `)`
is the final character, so `line.substr(r + 2)` throws an uncaught
`std::out_of_range`. -/
theorem stat_parser_counterexample :
    readPidStatLine "1 (foo)".data = .thrown ∧
      StatResult.thrown ≠ StatResult.failed :=
  ⟨by decide, by decide⟩

/-- Witness for C10 (amended) on a well-formed 24-field line. -/
theorem stat_parser_total_or_throws_witness :
    readPidStatLine statLine500 = .ok 500 0 7 ['f', 'o', 'o'] ∧
      (∃ l r, statLine500.findIdx? (fun c => c = '(') = some l ∧
        lastIdxOf ')' statLine500 = some r ∧ l < r ∧ r + 2 ≤ statLine500.length ∧
        24 ≤ (wsTokens (statLine500.drop (r + 2))).length ∧
        stoullTok ((wsTokens (statLine500.drop (r + 2))).getD 13 []) = some 500 ∧
        stoullTok ((wsTokens (statLine500.drop (r + 2))).getD 14 []) = some 0 ∧
        stoullTok ((wsTokens (statLine500.drop (r + 2))).getD 21 []) = some 7 ∧
        ['f', 'o', 'o'] = (statLine500.drop (l + 1)).take (r - l - 1)) :=
  ⟨by decide,
    (stat_parser_total_or_throws statLine500).2 500 0 7 ['f', 'o', 'o'] (by decide)⟩
